import Mathlib

/-!
Verification of the CasOC direct-collocation transcription layer
(Moco/MocoCasADiSolver/CasOCTranscription.cpp), shallowly embedded in Lean.

Symbolic CasADi matrices (MX) are modelled as total functions
`Nat → Nat → Expr` over an inductive expression type whose atoms are the
entries of the decision-variable blocks and the opaque outputs of the
problem's point-functions.  Numeric matrices (DM) are modelled over `ℚ`
(or `Int` where only integers occur).
-/

namespace CasOC

/-- Configuration of one transcription: counts taken from `m_problem` and
`m_solver` in `Transcription::createVariablesAndSetBounds`.  `mask i` is the
kinematic-constraint index mask produced by
`createKinematicConstraintIndices()` (1 at grid points where kinematic
constraints are enforced); `G` is `m_numGridPoints`, `M` is
`m_numMeshPoints`. -/
structure Cfg where
  NQ : Nat
  NU : Nat
  NZ : Nat
  G : Nat
  M : Nat
  mask : Nat → Bool
  enforceConstraintDerivatives : Bool
  implicitMode : Bool

/-- `m_problem.getNumStates()`: states partition as coordinates, speeds,
auxiliary. -/
def Cfg.NS (c : Cfg) : Nat := c.NQ + c.NU + c.NZ

/-- `m_numPointsIgnoringConstraints = m_numGridPoints - m_numMeshPoints`. -/
def Cfg.P (c : Cfg) : Nat := c.G - c.M

/-- `m_daeIndices`: grid indices whose mask entry is 1 (the loop in
`createVariablesAndSetBounds` pushes `i` when
`m_kinematicConstraintIndices(i) == 1`). -/
def daeList (c : Cfg) : List Nat := (List.range c.G).filter c.mask

/-- `m_daeIndicesIgnoringConstraints`: grid indices whose mask entry is 0. -/
def iicList (c : Cfg) : List Nat :=
  (List.range c.G).filter (fun i => ! c.mask i)

/-- `m_numResiduals = m_solver.isDynamicsModeImplicit() ?
m_problem.getNumSpeeds() : 0` (CasOCTranscription.cpp:41). -/
def numResidualsOf (implicitMode : Bool) (numSpeeds : Nat) : Nat :=
  if implicitMode then numSpeeds else 0

/-- `m_numResiduals` for a configuration. -/
def Cfg.numResiduals (c : Cfg) : Nat := numResidualsOf c.implicitMode c.NU

/-- Symbolic scalar expressions: entries of the MX expression graph that
`transcribe` builds.  Atoms are entries of variable blocks and the opaque
outputs of mapped point-functions; `k` indexes the column of the mapped
evaluation (its time index is element `k` of the index vector the function
was mapped over). -/
inductive Expr where
  | zero
  | state (row col : Nat)
  | deriv (row col : Nat)
  | velCorr (row k : Nat)
  | mbs (outIdx row k : Nat)
  | mbsIgn (outIdx row k : Nat)
  | implMbs (outIdx row k : Nat)
  | implMbsIgn (outIdx row k : Nat)
  | add (a b : Expr)
deriving DecidableEq, Repr

/-- Does an expression contain an output of the velocity-correction
point-function? -/
def Expr.hasVelCorr : Expr → Bool
  | .velCorr _ _ => true
  | .add a b => a.hasVelCorr || b.hasVelCorr
  | _ => false

/-- `m_xdot = MX(NS, m_numGridPoints)`: a dense all-zero matrix. -/
def xdotInit (_c : Cfg) : Nat → Nat → Expr := fun _ _ => Expr.zero

/-- `m_xdot(Slice(0, NQ), Slice()) = u` where
`u = m_vars[states](Slice(NQ, NQ + NU), Slice())`: row `i` of the qdot block
receives state row `NQ + i` (the speed rows) at every column. -/
def xdotQdot (c : Cfg) : Nat → Nat → Expr := fun i j =>
  if i < c.NQ then Expr.state (c.NQ + i) j else xdotInit c i j

/-- Velocity-correction step (CasOCTranscription.cpp:233-249): when
`m_problem.getEnforceConstraintDerivatives()` and
`m_numPointsIgnoringConstraints` is nonzero, the velocity-correction
point-function is mapped over `m_daeIndicesIgnoringConstraints` and its
output `uCorr` is added (`+=`) to the qdot rows at those columns. -/
def xdotVelCorr (c : Cfg) : Nat → Nat → Expr := fun i j =>
  if c.enforceConstraintDerivatives ∧ 0 < c.P then
    if i < c.NQ ∧ j ∈ iicList c then
      Expr.add (xdotQdot c i j) (Expr.velCorr i ((iicList c).indexOf j))
    else xdotQdot c i j
  else xdotQdot c i j

/-- MX slice assignment `m(Slice(lo, hi), cols) = f`: rows `lo ≤ i < hi`,
columns listed in `cols`; the assigned entry is `f` at block row `i - lo`
and at the position of `j` within `cols`. -/
def assignBlock (lo hi : Nat) (cols : List Nat) (f : Nat → Nat → Expr)
    (m : Nat → Nat → Expr) : Nat → Nat → Expr := fun i j =>
  if lo ≤ i ∧ i < hi ∧ j ∈ cols then f (i - lo) (cols.indexOf j)
  else m i j

/-- MX slice assignment `m(Slice(lo, hi), Slice()) = f`: rows `lo ≤ i < hi`
at every column. -/
def assignRowsAllCols (lo hi : Nat) (f : Nat → Nat → Expr)
    (m : Nat → Nat → Expr) : Nat → Nat → Expr := fun i j =>
  if lo ≤ i ∧ i < hi then f (i - lo) j else m i j

/-- Implicit-mode dynamics assembly (CasOCTranscription.cpp:253-289):
`m_xdot(Slice(NQ, NQ+NU), Slice()) = m_vars[derivatives]`; unconstrained
rows `NQ+NU..NS` receive zdot (output 1) of the implicit multibody system
on `m_daeIndices`, and, when `m_numPointsIgnoringConstraints` is nonzero,
of the ignoring-constraints variant on
`m_daeIndicesIgnoringConstraints`. -/
def xdotImplicit (c : Cfg) : Nat → Nat → Expr :=
  let x1 := assignRowsAllCols c.NQ (c.NQ + c.NU)
    (fun r j => Expr.deriv r j) (xdotVelCorr c)
  let x2 := assignBlock (c.NQ + c.NU) c.NS (daeList c)
    (fun r k => Expr.implMbs 1 r k) x1
  if 0 < c.P then
    assignBlock (c.NQ + c.NU) c.NS (iicList c)
      (fun r k => Expr.implMbsIgn 1 r k) x2
  else x2

/-- Explicit-mode dynamics assembly (CasOCTranscription.cpp:291-316): udot
(output 0) into rows `NQ..NQ+NU` and zdot (output 1) into rows `NQ+NU..NS`,
from the multibody system on `m_daeIndices` and, when
`m_numPointsIgnoringConstraints` is nonzero, the ignoring-constraints
variant on `m_daeIndicesIgnoringConstraints`. -/
def xdotExplicit (c : Cfg) : Nat → Nat → Expr :=
  let x1 := assignBlock c.NQ (c.NQ + c.NU) (daeList c)
    (fun r k => Expr.mbs 0 r k) (xdotVelCorr c)
  let x2 := assignBlock (c.NQ + c.NU) c.NS (daeList c)
    (fun r k => Expr.mbs 1 r k) x1
  if 0 < c.P then
    let x3 := assignBlock c.NQ (c.NQ + c.NU) (iicList c)
      (fun r k => Expr.mbsIgn 0 r k) x2
    assignBlock (c.NQ + c.NU) c.NS (iicList c)
      (fun r k => Expr.mbsIgn 1 r k) x3
  else x2

/-- `m_xdot` at the end of `Transcription::transcribe`. -/
def xdotFinal (c : Cfg) : Nat → Nat → Expr :=
  if c.implicitMode then xdotImplicit c else xdotExplicit c

/-- Shape of `m_constraints.residuals = MX(Sparsity::dense(NR, G))`
(CasOCTranscription.cpp:209). -/
def residualsShape (c : Cfg) : Nat × Nat := (c.numResiduals, c.G)

/-- `m_constraintsLowerBounds.residuals = DM::zeros(NR, G)`. -/
def residualsLowerBound (_c : Cfg) : Nat → Nat → Int := fun _ _ => 0

/-- `m_constraintsUpperBounds.residuals = DM::zeros(NR, G)`. -/
def residualsUpperBound (_c : Cfg) : Nat → Nat → Int := fun _ _ => 0

/-- A concrete Hermite-Simpson-like configuration: 2 mesh points, 1
interior point (grid index 1), one coordinate, one speed, one auxiliary
state, explicit dynamics, constraint derivatives enforced. -/
def sampleCfgHS : Cfg where
  NQ := 1
  NU := 1
  NZ := 1
  G := 3
  M := 2
  mask := fun i => i != 1
  enforceConstraintDerivatives := true
  implicitMode := false

/-- The sample configuration with implicit dynamics mode. -/
def sampleCfgImpl : Cfg where
  NQ := 1
  NU := 1
  NZ := 1
  G := 3
  M := 2
  mask := fun i => i != 1
  enforceConstraintDerivatives := false
  implicitMode := true

theorem assignBlock_row_lt {lo hi : Nat} {cols : List Nat}
    {f m : Nat → Nat → Expr} {i j : Nat} (h : i < lo) :
    assignBlock lo hi cols f m i j = m i j := by
  unfold assignBlock
  rw [if_neg]
  rintro ⟨h1, -, -⟩
  omega

theorem assignRowsAllCols_row_lt {lo hi : Nat} {f m : Nat → Nat → Expr}
    {i j : Nat} (h : i < lo) : assignRowsAllCols lo hi f m i j = m i j := by
  unfold assignRowsAllCols
  rw [if_neg]
  rintro ⟨h1, -⟩
  omega

/-- Rows below the qdot block boundary are untouched by the dynamics
assembly steps of `transcribe`. -/
theorem xdotFinal_row_lt_NQ (c : Cfg) (i j : Nat) (h : i < c.NQ) :
    xdotFinal c i j = xdotVelCorr c i j := by
  have h1 : i < c.NQ + c.NU := by omega
  unfold xdotFinal xdotImplicit xdotExplicit
  by_cases hm : c.implicitMode <;> by_cases hp : 0 < c.P <;>
    simp only [hm, hp, if_true, if_false, Bool.false_eq_true, ite_true,
      ite_false, assignBlock_row_lt h, assignBlock_row_lt h1,
      assignRowsAllCols_row_lt h]

theorem hasVelCorr_assignBlock {lo hi : Nat} {cols : List Nat}
    {f m : Nat → Nat → Expr} (hf : ∀ r k, (f r k).hasVelCorr = false)
    (hm : ∀ i j, (m i j).hasVelCorr = false) :
    ∀ i j, (assignBlock lo hi cols f m i j).hasVelCorr = false := by
  intro i j
  unfold assignBlock
  split
  · exact hf _ _
  · exact hm i j

theorem hasVelCorr_assignRowsAllCols {lo hi : Nat}
    {f m : Nat → Nat → Expr} (hf : ∀ r k, (f r k).hasVelCorr = false)
    (hm : ∀ i j, (m i j).hasVelCorr = false) :
    ∀ i j, (assignRowsAllCols lo hi f m i j).hasVelCorr = false := by
  intro i j
  unfold assignRowsAllCols
  split
  · exact hf _ _
  · exact hm i j

/-- C2: if kinematic-constraint derivatives are enforced and `P > 0`,
`transcribe` evaluates the velocity correction on the interior index set
and adds its output to the qdot rows of `m_xdot` exactly at the columns in
`IIC`, making those entries symbolically `u + uCorr` (and plain `u`
elsewhere in the qdot rows); when derivatives are not enforced or `P = 0`,
no velocity-correction output appears anywhere in `m_xdot`. -/
theorem transcribe_velocity_correction (c : Cfg) :
    (c.enforceConstraintDerivatives = true → 0 < c.P →
      ∀ i < c.NQ, ∀ j < c.G,
        (j ∈ iicList c →
          xdotFinal c i j =
            Expr.add (Expr.state (c.NQ + i) j)
              (Expr.velCorr i ((iicList c).indexOf j))) ∧
        (j ∉ iicList c → xdotFinal c i j = Expr.state (c.NQ + i) j)) ∧
    ((c.enforceConstraintDerivatives = false ∨ c.P = 0) →
      ∀ i j, (xdotFinal c i j).hasVelCorr = false) := by
  constructor
  · intro he hp i hi j _hj
    constructor
    · intro hmem
      rw [xdotFinal_row_lt_NQ c i j hi]
      unfold xdotVelCorr
      rw [if_pos ⟨he, hp⟩, if_pos ⟨hi, hmem⟩]
      unfold xdotQdot
      rw [if_pos hi]
    · intro hmem
      rw [xdotFinal_row_lt_NQ c i j hi]
      unfold xdotVelCorr
      rw [if_pos ⟨he, hp⟩, if_neg (by rintro ⟨-, hm2⟩; exact hmem hm2)]
      unfold xdotQdot
      rw [if_pos hi]
  · intro hne
    have hbase : ∀ i j, (xdotVelCorr c i j).hasVelCorr = false := by
      intro i j
      have hcond : ¬ (c.enforceConstraintDerivatives = true ∧ 0 < c.P) := by
        rcases hne with h | h
        · rw [h]; rintro ⟨h2, -⟩; exact Bool.false_ne_true h2
        · rintro ⟨-, h2⟩; omega
      unfold xdotVelCorr
      rw [if_neg (by rintro ⟨ha, hb⟩; exact hcond ⟨ha, hb⟩)]
      unfold xdotQdot xdotInit
      split <;> rfl
    have himpl : ∀ i j, (xdotImplicit c i j).hasVelCorr = false := by
      intro i j
      unfold xdotImplicit
      split
      · apply hasVelCorr_assignBlock
        · intro r k; rfl
        · apply hasVelCorr_assignBlock
          · intro r k; rfl
          · apply hasVelCorr_assignRowsAllCols
            · intro r k; rfl
            · exact hbase
      · apply hasVelCorr_assignBlock
        · intro r k; rfl
        · apply hasVelCorr_assignRowsAllCols
          · intro r k; rfl
          · exact hbase
    have hexpl : ∀ i j, (xdotExplicit c i j).hasVelCorr = false := by
      intro i j
      unfold xdotExplicit
      split
      · apply hasVelCorr_assignBlock
        · intro r k; rfl
        · apply hasVelCorr_assignBlock
          · intro r k; rfl
          · apply hasVelCorr_assignBlock
            · intro r k; rfl
            · apply hasVelCorr_assignBlock
              · intro r k; rfl
              · exact hbase
      · apply hasVelCorr_assignBlock
        · intro r k; rfl
        · apply hasVelCorr_assignBlock
          · intro r k; rfl
          · exact hbase
    intro i j
    unfold xdotFinal
    split
    · exact himpl i j
    · exact hexpl i j

/-- Witness for C2: at the sample configuration the qdot entry of `m_xdot`
at interior column 1 is `u + uCorr`. -/
theorem transcribe_velocity_correction_witness :
    sampleCfgHS.enforceConstraintDerivatives = true ∧ 0 < sampleCfgHS.P ∧
    (0 : Nat) < sampleCfgHS.NQ ∧ (1 : Nat) < sampleCfgHS.G ∧
    1 ∈ iicList sampleCfgHS ∧
    xdotFinal sampleCfgHS 0 1 = Expr.add (Expr.state 1 1) (Expr.velCorr 0 0) := by
  refine ⟨rfl, by decide, by decide, by decide, by decide, ?_⟩
  have h := ((transcribe_velocity_correction sampleCfgHS).1 rfl (by decide)
      0 (by decide) 1 (by decide)).1 (by decide)
  exact h.trans (by decide)

theorem assignBlock_row_ge {lo hi : Nat} {cols : List Nat}
    {f m : Nat → Nat → Expr} {i j : Nat} (h : hi ≤ i) :
    assignBlock lo hi cols f m i j = m i j := by
  unfold assignBlock
  rw [if_neg]
  rintro ⟨-, h2, -⟩
  omega

theorem assignBlock_hit {lo hi : Nat} {cols : List Nat}
    {f m : Nat → Nat → Expr} {i j : Nat} (h1 : lo ≤ i) (h2 : i < hi)
    (h3 : j ∈ cols) :
    assignBlock lo hi cols f m i j = f (i - lo) (cols.indexOf j) := by
  unfold assignBlock
  rw [if_pos ⟨h1, h2, h3⟩]

theorem assignBlock_col_not_mem {lo hi : Nat} {cols : List Nat}
    {f m : Nat → Nat → Expr} {i j : Nat} (h : j ∉ cols) :
    assignBlock lo hi cols f m i j = m i j := by
  unfold assignBlock
  rw [if_neg]
  rintro ⟨-, -, hmem⟩
  exact h hmem

theorem mem_daeList_not_mem_iicList {c : Cfg} {j : Nat}
    (h : j ∈ daeList c) : j ∉ iicList c := by
  intro hmem
  rw [daeList, List.mem_filter] at h
  rw [iicList, List.mem_filter] at hmem
  rw [h.2] at hmem
  exact absurd hmem.2 (by simp)

theorem mem_iicList_not_mem_daeList {c : Cfg} {j : Nat}
    (h : j ∈ iicList c) : j ∉ daeList c := by
  intro hmem
  rw [iicList, List.mem_filter] at h
  rw [daeList, List.mem_filter] at hmem
  rw [hmem.2] at h
  exact absurd h.2 (by simp)

/-- C3: in implicit dynamics mode `m_numResiduals` equals the number of
speeds, the residuals block has shape `NU × G` with all-zero bound tables,
and the udot rows of `m_xdot` equal the `derivatives` variable block at
every column; in explicit mode `m_numResiduals = 0` and the multibody
system outputs udot (output 0) and zdot (output 1) are written into rows
`NQ..NQ+NU` and `NQ+NU..NS` respectively. -/
theorem transcribe_dynamics_modes (c : Cfg) :
    (c.implicitMode = true →
      c.numResiduals = c.NU ∧
      residualsShape c = (c.NU, c.G) ∧
      (∀ i j, residualsLowerBound c i j = 0 ∧ residualsUpperBound c i j = 0) ∧
      (∀ i, c.NQ ≤ i → i < c.NQ + c.NU → ∀ j,
        xdotFinal c i j = Expr.deriv (i - c.NQ) j)) ∧
    (c.implicitMode = false →
      c.numResiduals = 0 ∧
      (∀ i, c.NQ ≤ i → i < c.NQ + c.NU →
        (∀ j ∈ daeList c,
          xdotFinal c i j = Expr.mbs 0 (i - c.NQ) ((daeList c).indexOf j)) ∧
        (0 < c.P → ∀ j ∈ iicList c,
          xdotFinal c i j = Expr.mbsIgn 0 (i - c.NQ) ((iicList c).indexOf j))) ∧
      (∀ i, c.NQ + c.NU ≤ i → i < c.NS →
        (∀ j ∈ daeList c,
          xdotFinal c i j =
            Expr.mbs 1 (i - (c.NQ + c.NU)) ((daeList c).indexOf j)) ∧
        (0 < c.P → ∀ j ∈ iicList c,
          xdotFinal c i j =
            Expr.mbsIgn 1 (i - (c.NQ + c.NU)) ((iicList c).indexOf j)))) := by
  constructor
  · intro hm
    refine ⟨by simp [Cfg.numResiduals, numResidualsOf, hm],
      by simp [residualsShape, Cfg.numResiduals, numResidualsOf, hm],
      fun i j => ⟨rfl, rfl⟩, ?_⟩
    intro i hi1 hi2 j
    unfold xdotFinal
    rw [if_pos hm]
    unfold xdotImplicit
    split
    · rw [assignBlock_row_lt hi2, assignBlock_row_lt hi2]
      unfold assignRowsAllCols
      rw [if_pos ⟨hi1, hi2⟩]
    · rw [assignBlock_row_lt hi2]
      unfold assignRowsAllCols
      rw [if_pos ⟨hi1, hi2⟩]
  · intro hm
    refine ⟨by simp [Cfg.numResiduals, numResidualsOf, hm], ?_, ?_⟩
    · intro i hi1 hi2
      constructor
      · intro j hj
        unfold xdotFinal
        rw [if_neg (by simp [hm])]
        unfold xdotExplicit
        split
        · rw [assignBlock_row_lt hi2,
            assignBlock_col_not_mem (mem_daeList_not_mem_iicList hj),
            assignBlock_row_lt hi2]
          unfold assignBlock
          rw [if_pos ⟨hi1, hi2, hj⟩]
        · rw [assignBlock_row_lt hi2]
          unfold assignBlock
          rw [if_pos ⟨hi1, hi2, hj⟩]
      · intro hp j hj
        unfold xdotFinal
        rw [if_neg (by simp [hm])]
        unfold xdotExplicit
        split
        · rw [assignBlock_row_lt hi2]
          unfold assignBlock
          rw [if_pos ⟨hi1, hi2, hj⟩]
        · omega
    · intro i hi1 hi2
      constructor
      · intro j hj
        unfold xdotFinal
        rw [if_neg (by simp [hm])]
        unfold xdotExplicit
        split
        · rw [assignBlock_col_not_mem (mem_daeList_not_mem_iicList hj),
            assignBlock_row_ge hi1]
          unfold assignBlock
          rw [if_pos ⟨hi1, hi2, hj⟩]
        · unfold assignBlock
          rw [if_pos ⟨hi1, hi2, hj⟩]
      · intro hp j hj
        unfold xdotFinal
        rw [if_neg (by simp [hm])]
        unfold xdotExplicit
        split
        · dsimp only
          rw [assignBlock_hit hi1 hi2 hj]
        · omega

/-- Witness for C3 at a concrete implicit configuration and a concrete
explicit configuration. -/
theorem transcribe_dynamics_modes_witness :
    sampleCfgImpl.implicitMode = true ∧
    sampleCfgImpl.numResiduals = 1 ∧
    residualsShape sampleCfgImpl = (1, 3) ∧
    xdotFinal sampleCfgImpl 1 0 = Expr.deriv 0 0 ∧
    sampleCfgHS.implicitMode = false ∧
    sampleCfgHS.numResiduals = 0 ∧
    xdotFinal sampleCfgHS 1 2 = Expr.mbs 0 0 1 := by
  obtain ⟨h1, h2, -, h4⟩ := (transcribe_dynamics_modes sampleCfgImpl).1 rfl
  obtain ⟨g1, g2, -⟩ := (transcribe_dynamics_modes sampleCfgHS).2 rfl
  refine ⟨rfl, ?_, ?_, ?_, rfl, g1, ?_⟩
  · exact h1.trans (by decide)
  · exact h2.trans (by decide)
  · exact (h4 1 (by decide) (by decide) 0).trans (by decide)
  · exact ((g2 1 (by decide) (by decide)).1 2 (by decide)).trans (by decide)

/-- C9: at every mesh-point column (the DAE index set, mask = 1) the qdot
rows of `m_xdot` equal the speed rows of the states block: the velocity
correction touches only interior columns. -/
theorem transcribe_qdot_mesh_columns (c : Cfg) :
    ∀ i < c.NQ, ∀ j ∈ daeList c, xdotFinal c i j = Expr.state (c.NQ + i) j := by
  intro i hi j hj
  rw [xdotFinal_row_lt_NQ c i j hi]
  have hnot : j ∉ iicList c := by
    intro hmem
    rw [daeList, List.mem_filter] at hj
    rw [iicList, List.mem_filter] at hmem
    rw [hj.2] at hmem
    exact absurd hmem.2 (by simp)
  unfold xdotVelCorr
  split
  · rw [if_neg (by rintro ⟨-, hm2⟩; exact hnot hm2)]
    unfold xdotQdot
    rw [if_pos hi]
  · unfold xdotQdot
    rw [if_pos hi]

/-- Witness for C9: at the sample configuration, the qdot entry at
mesh-point column 2 is the speed state entry, untouched by the
correction. -/
theorem transcribe_qdot_mesh_columns_witness :
    (0 : Nat) < sampleCfgHS.NQ ∧ 2 ∈ daeList sampleCfgHS ∧
    xdotFinal sampleCfgHS 0 2 = Expr.state 1 2 := by
  refine ⟨by decide, by decide, ?_⟩
  have h := transcribe_qdot_mesh_columns sampleCfgHS 0 (by decide) 2 (by decide)
  exact h.trans (by decide)

/-- Integrand trajectory of `Transcription::setObjective`
(CasOCTranscription.cpp:343-365): the integral-cost integrand evaluated at
every grid point; when `m_solver.getMinimizeLagrangeMultipliers()` is set
and the problem has multipliers, the weighted column-wise sum of squared
multipliers is added to it (`integrandTraj += multiplierWeight *
MX::sum1(MX::sq(mults))`) before any quadrature is applied. -/
def codeIntegrandTraj (NM : Nat) (minimize : Bool) (w : ℚ)
    (integrand : Nat → ℚ) (lam : Nat → Nat → ℚ) : Nat → ℚ :=
  if minimize = true ∧ NM ≠ 0 then
    fun j => integrand j + w * ∑ m ∈ Finset.range NM, (lam m j) ^ 2
  else integrand

/-- Objective built by `Transcription::setObjective`: `integralCost =
m_duration * dot(quadCoeffs.T(), integrandTraj)` plus the endpoint cost,
over numeric assignments of the symbolic quantities. -/
def codeObjective (G NM : Nat) (minimize : Bool) (w t0 tf : ℚ)
    (quad integrand : Nat → ℚ) (lam : Nat → Nat → ℚ)
    (endpointCost : ℚ) : ℚ :=
  (tf - t0) *
    (∑ j ∈ Finset.range G,
      quad j * codeIntegrandTraj NM minimize w integrand lam j) +
  endpointCost

/-- The objective formula exactly as the spec states it for claim C1: the
quadrature term applies to the integrand alone and the regularization
`w·Σ λ²` (sum of squares over all multiplier entries) is a separate term
outside the quadrature. -/
def specObjectiveC1 (G NM : Nat) (minimize : Bool) (w t0 tf : ℚ)
    (quad integrand : Nat → ℚ) (lam : Nat → Nat → ℚ)
    (endpointCost : ℚ) : ℚ :=
  (tf - t0) * (∑ j ∈ Finset.range G, quad j * integrand j) + endpointCost +
  (if minimize = true ∧ NM ≠ 0 then
    w * ∑ m ∈ Finset.range NM, ∑ j ∈ Finset.range G, (lam m j) ^ 2
  else 0)

/-- C1 counterexample: with one grid point, quadrature coefficient 2,
duration 1, zero integrand, one multiplier of value 3, weight 1 and zero
endpoint cost, the objective the code builds is 18 while the spec formula
gives 9: the regularization is inside the quadrature, not outside it. -/
theorem setObjective_counterexample :
    codeObjective 1 1 true 1 0 1 (fun _ => 2) (fun _ => 0)
        (fun _ _ => 3) 0 ≠
      specObjectiveC1 1 1 true 1 0 1 (fun _ => 2) (fun _ => 0)
        (fun _ _ => 3) 0 := by
  norm_num [codeObjective, codeIntegrandTraj, specObjectiveC1,
    Finset.sum_range_one]

/-- C1 (amended): the objective equals `(t_f − t₀)·qᵀ·ℓ + Φ` plus, only
when multipliers exist and their minimization is requested, the
regularization taken *inside* the quadrature: the per-grid-point multiplier
sum of squares is weighted by the quadrature coefficient of its grid point
and by the duration. -/
theorem setObjective_amended (G NM : Nat) (minimize : Bool) (w t0 tf : ℚ)
    (quad integrand : Nat → ℚ) (lam : Nat → Nat → ℚ) (endpointCost : ℚ) :
    codeObjective G NM minimize w t0 tf quad integrand lam endpointCost =
      (tf - t0) * (∑ j ∈ Finset.range G, quad j * integrand j) +
        endpointCost +
      (if minimize = true ∧ NM ≠ 0 then
        (tf - t0) * w *
          ∑ j ∈ Finset.range G,
            quad j * ∑ m ∈ Finset.range NM, (lam m j) ^ 2
      else 0) := by
  by_cases h : minimize = true ∧ NM ≠ 0
  · simp only [codeObjective, codeIntegrandTraj, if_pos h]
    have hsum : ∑ j ∈ Finset.range G,
        quad j * (integrand j + w * ∑ m ∈ Finset.range NM, (lam m j) ^ 2) =
        (∑ j ∈ Finset.range G, quad j * integrand j) +
          w * ∑ j ∈ Finset.range G,
            quad j * ∑ m ∈ Finset.range NM, (lam m j) ^ 2 := by
      rw [Finset.mul_sum, ← Finset.sum_add_distrib]
      apply Finset.sum_congr rfl
      intro j _
      ring
    rw [hsum]
    ring
  · simp only [codeObjective, codeIntegrandTraj, if_neg h]
    ring

/-- `casadi::Matrix::remove` on columns, one scan with a running column
index: a column is dropped when its index is listed in `toRemove`. -/
def removeColumnsGo {α : Type} (toRemove : List Nat) :
    List α → Nat → List α
  | [], _ => []
  | x :: rest, n =>
    if n ∈ toRemove then removeColumnsGo toRemove rest (n + 1)
    else x :: removeColumnsGo toRemove rest (n + 1)

/-- `slacks.remove(std::vector<casadi_int>(), slackColumnsToRemove)`. -/
def removeColumns {α : Type} (cols : List α) (toRemove : List Nat) :
    List α :=
  removeColumnsGo toRemove cols 0

/-- Slack-guess normalization in `Transcription::solve`
(CasOCTranscription.cpp:393-420): if the slack block has `G` columns,
remove the columns at the mask-1 grid indices (the loop pushes `itime`
whenever `kinConIndices(itime)` is nonzero); then fail unless the column
count equals `m_numPointsIgnoringConstraints`, the error carrying the
expected and actual lengths (the message "Expected slack variables to be
length %i, but they are length %i."). -/
def normalizeSlacks {α : Type} (c : Cfg) (slackCols : List α) :
    Except (Nat × Nat) (List α) :=
  let cols :=
    if slackCols.length = c.G then removeColumns slackCols (daeList c)
    else slackCols
  if cols.length = c.P then Except.ok cols
  else Except.error (c.P, cols.length)

theorem length_filter_add_length_filter_not {α : Type} (p : α → Bool)
    (l : List α) :
    (l.filter p).length + (l.filter (fun x => ! p x)).length = l.length := by
  induction l with
  | nil => rfl
  | cons x rest ih =>
    by_cases hp : p x = true
    · simp only [List.filter_cons, hp, Bool.not_true, if_true, if_false,
        Bool.false_eq_true, List.length_cons]
      omega
    · have hp2 : p x = false := by
        revert hp
        cases p x <;> simp
      simp only [List.filter_cons, hp2, Bool.not_false, if_true, if_false,
        Bool.false_eq_true, List.length_cons]
      omega

theorem iicList_length (c : Cfg) (h : (daeList c).length = c.M) :
    (iicList c).length = c.G - c.M := by
  have hpart := length_filter_add_length_filter_not c.mask (List.range c.G)
  rw [List.length_range] at hpart
  unfold daeList at h
  unfold iicList
  omega

theorem removeColumnsGo_empty {α : Type} (cols : List α) :
    ∀ n : Nat, removeColumnsGo ([] : List Nat) cols n = cols := by
  induction cols with
  | nil => intro n; rfl
  | cons x rest ih =>
    intro n
    simp only [removeColumnsGo, List.not_mem_nil, if_false, ih]

theorem removeColumnsGo_eq_filter_map {α : Type} (d : α) (p : Nat → Bool)
    (G : Nat) (cols : List α) :
    ∀ n : Nat, n + cols.length ≤ G →
      removeColumnsGo ((List.range G).filter p) cols n =
        ((List.range' n cols.length).filter (fun i => ! p i)).map
          (fun i => cols.getD (i - n) d) := by
  induction cols with
  | nil => intro n _; rfl
  | cons x rest ih =>
    intro n h
    have hn : n < G := by
      simp only [List.length_cons] at h
      omega
    simp only [List.length_cons]
    rw [List.range'_succ, List.filter_cons]
    have hrec : n + 1 + rest.length ≤ G := by
      simp only [List.length_cons] at h
      omega
    by_cases hp : p n = true
    · have hmem : n ∈ (List.range G).filter p := by
        rw [List.mem_filter, List.mem_range]
        exact ⟨hn, hp⟩
      simp only [removeColumnsGo]
      rw [if_pos hmem, ih (n + 1) hrec]
      have hp2 : (! p n) = false := by rw [hp]; rfl
      rw [hp2, if_neg (by simp)]
      apply List.map_congr_left
      intro i hi
      have hge : n + 1 ≤ i := by
        have := (List.mem_range'_1.mp (List.mem_of_mem_filter hi)).1
        omega
      have heq : i - n = (i - (n + 1)) + 1 := by omega
      rw [heq, List.getD_cons_succ]
    · have hmem : n ∉ (List.range G).filter p := by
        rw [List.mem_filter]
        rintro ⟨-, h2⟩
        exact hp h2
      have hp2 : (! p n) = true := by
        revert hp
        cases p n <;> simp
      simp only [removeColumnsGo]
      rw [if_neg hmem, ih (n + 1) hrec]
      rw [hp2, if_pos rfl, List.map_cons]
      congr 1
      · rw [Nat.sub_self, List.getD_cons_zero]
      · apply List.map_congr_left
        intro i hi
        have hge : n + 1 ≤ i := by
          have := (List.mem_range'_1.mp (List.mem_of_mem_filter hi)).1
          omega
        have heq : i - n = (i - (n + 1)) + 1 := by omega
        rw [heq, List.getD_cons_succ]

/-- C4: normalization of a guess's slack block in `Transcription::solve`:
a `G`-column block has its mask-1 (mesh-point) columns removed, leaving
exactly the guess's columns at the interior indices `IIC`, in order; a
`P`-column block is left unchanged; any other width fails with the
configuration error carrying the expected (`P`) and actual lengths. -/
theorem solve_slack_normalization {α : Type} (d : α) (c : Cfg)
    (hmask : (daeList c).length = c.M) (cols : List α) :
    (cols.length = c.G →
      normalizeSlacks c cols =
        Except.ok ((iicList c).map (fun i => cols.getD i d))) ∧
    (cols.length = c.P →
      normalizeSlacks c cols = Except.ok cols) ∧
    (cols.length ≠ c.G → cols.length ≠ c.P →
      normalizeSlacks c cols = Except.error (c.P, cols.length)) := by
  have hMle : c.M ≤ c.G := by
    rw [← hmask]
    calc (daeList c).length ≤ (List.range c.G).length :=
          List.length_filter_le _ _
      _ = c.G := List.length_range c.G
  refine ⟨?_, ?_, ?_⟩
  · intro hlen
    have hremove : removeColumns cols (daeList c) =
        (iicList c).map (fun i => cols.getD i d) := by
      unfold removeColumns daeList
      rw [removeColumnsGo_eq_filter_map d c.mask c.G cols 0 (by omega)]
      rw [hlen, ← List.range_eq_range']
      unfold iicList
      apply List.map_congr_left
      intro i _
      rw [Nat.sub_zero]
    have hsel : (if cols.length = c.G then removeColumns cols (daeList c)
        else cols) = (iicList c).map (fun i => cols.getD i d) := by
      rw [if_pos hlen, hremove]
    have hlen2 : ((iicList c).map (fun i => cols.getD i d)).length = c.P := by
      rw [List.length_map, iicList_length c hmask]
      rfl
    simp only [normalizeSlacks, hsel]
    rw [if_pos hlen2]
  · intro hlen
    by_cases hG : cols.length = c.G
    · have hM0 : c.M = 0 := by
        unfold Cfg.P at hlen
        omega
      have hdae : daeList c = [] := by
        rw [← List.length_eq_zero, hmask, hM0]
      have hsel : (if cols.length = c.G then removeColumns cols (daeList c)
          else cols) = cols := by
        rw [if_pos hG, hdae]
        exact removeColumnsGo_empty cols 0
      simp only [normalizeSlacks, hsel]
      rw [if_pos hlen]
    · have hsel : (if cols.length = c.G then removeColumns cols (daeList c)
          else cols) = cols := if_neg hG
      simp only [normalizeSlacks, hsel]
      rw [if_pos hlen]
  · intro hG hP
    have hsel : (if cols.length = c.G then removeColumns cols (daeList c)
        else cols) = cols := if_neg hG
    simp only [normalizeSlacks, hsel]
    rw [if_neg hP]

/-- Witness for C4 at the sample configuration (`G = 3`, `M = 2`,
`P = 1`, interior index 1): a 3-column guess keeps exactly its column at
index 1; a 1-column guess is unchanged; a 2-column guess fails with
expected length 1 and actual length 2. -/
theorem solve_slack_normalization_witness :
    (daeList sampleCfgHS).length = sampleCfgHS.M ∧
    normalizeSlacks sampleCfgHS [10, 20, 30] = Except.ok [20] ∧
    normalizeSlacks sampleCfgHS [7] = Except.ok [7] ∧
    normalizeSlacks sampleCfgHS [1, 2] = Except.error (1, 2) := by
  refine ⟨by decide, ?_, ?_, ?_⟩
  · have h := (solve_slack_normalization 0 sampleCfgHS (by decide)
      [10, 20, 30]).1 (by decide)
    rw [h]
    rfl
  · exact (solve_slack_normalization 0 sampleCfgHS (by decide) [7]).2.1
      (by decide)
  · have h := (solve_slack_normalization 0 sampleCfgHS (by decide)
      [1, 2]).2.2 (by decide) (by decide)
    rw [h]
    rfl

/-- Which object is passed as the `timeIndices` argument of
`Transcription::evalOnTrajectory`: the dispatch in the source
(CasOCTranscription.cpp:946-954) compares the address of the argument with
the addresses of the three member index vectors (`&timeIndices ==
&m_gridIndices` and so on), so what matters is whether the argument is one
of those three member objects or some other vector object (`fresh`),
whatever its value. -/
inductive TimeIndicesArg where
  | gridIndices
  | daeIndices
  | daeIndicesIgnoringConstraints
  | fresh (v : List Nat)
deriving DecidableEq, Repr

/-- Value of the index vector the argument refers to: `m_gridIndices` is
`0..G-1`, `m_daeIndices` the mask-1 indices, the third the mask-0
indices. -/
def TimeIndicesArg.value (c : Cfg) : TimeIndicesArg → List Nat
  | .gridIndices => List.range c.G
  | .daeIndices => daeList c
  | .daeIndicesIgnoringConstraints => iicList c
  | .fresh v => v

/-- The three pre-repeated parameter blocks `m_paramsTrajGrid`,
`m_paramsTraj`, `m_paramsTrajIgnoringConstraints` (grid-, mesh-,
interior-width). -/
inductive ParamsBlock where
  | grid
  | mesh
  | interior
deriving DecidableEq, Repr

/-- Parameter-block dispatch of `evalOnTrajectory`: address comparison of
the argument against the three member vectors; any other object hits
`OPENSIM_THROW(OpenSim::Exception, "Internal error.")`. -/
def selectParamsBlock : TimeIndicesArg → Except String ParamsBlock
  | .gridIndices => Except.ok ParamsBlock.grid
  | .daeIndices => Except.ok ParamsBlock.mesh
  | .daeIndicesIgnoringConstraints => Except.ok ParamsBlock.interior
  | .fresh _ => Except.error "Internal error."

/-- C5 counterexample: a vector object distinct from the three members but
equal in value to the canonical grid index vector still hits the fatal
internal error, refuting "for an index vector equal in value to a
canonical one, it succeeds". -/
theorem evalOnTrajectory_value_equality_counterexample :
    (TimeIndicesArg.fresh [0, 1, 2]).value sampleCfgHS =
      TimeIndicesArg.gridIndices.value sampleCfgHS ∧
    selectParamsBlock (TimeIndicesArg.fresh [0, 1, 2]) =
      Except.error "Internal error." ∧
    selectParamsBlock TimeIndicesArg.gridIndices =
      Except.ok ParamsBlock.grid :=
  ⟨rfl, rfl, rfl⟩

/-- C5 (amended): `evalOnTrajectory` raises the fatal internal error iff
the index-vector argument is not one of the three canonical member vector
objects themselves — the dispatch is by object identity, not value — and
when a member vector is passed it selects the matching pre-repeated
parameters block. -/
theorem evalOnTrajectory_params_dispatch (a : TimeIndicesArg) :
    (selectParamsBlock a = Except.ok ParamsBlock.grid ↔
      a = TimeIndicesArg.gridIndices) ∧
    (selectParamsBlock a = Except.ok ParamsBlock.mesh ↔
      a = TimeIndicesArg.daeIndices) ∧
    (selectParamsBlock a = Except.ok ParamsBlock.interior ↔
      a = TimeIndicesArg.daeIndicesIgnoringConstraints) ∧
    ((∃ e, selectParamsBlock a = Except.error e) ↔
      ∃ v, a = TimeIndicesArg.fresh v) := by
  cases a <;> simp [selectParamsBlock]

/-- Loop of the lambda `calcL1Norm` in
`Transcription::printConstraintValues` (CasOCTranscription.cpp:723-733):
`max` is initialized to `v(0)` (not its absolute value), the loop compares
the raw `v(i) > max`, and only an updated `max` receives
`std::abs(v(i))`. -/
def calcL1NormLoop : List ℚ → Nat → ℚ → Nat → ℚ × Nat
  | [], _, mx, argmax => (mx, argmax)
  | x :: rest, i, mx, argmax =>
    if mx < x then calcL1NormLoop rest (i + 1) |x| i
    else calcL1NormLoop rest (i + 1) mx argmax

/-- The `calcL1Norm` lambda: returned value and the `argmax` out-parameter
(the code reads `v(0)` unconditionally; every call site passes a non-empty
row, so the empty case is arbitrary here). -/
def calcL1Norm : List ℚ → ℚ × Nat
  | [] => (0, 0)
  | x :: rest => calcL1NormLoop rest 1 x 0

/-- Maximum absolute value of a row, which is what the printed header "max
abs value (L1 norm), time of max abs" announces. -/
def maxAbsList (v : List ℚ) : ℚ := (v.map (fun x => |x|)).foldl max 0

/-- C6 (code bug): on the defect row `[-5, 1]` the helper returns value 1
with argmax 1, yet the maximum absolute value of the row is 5, attained at
index 0: the loop compares raw values against the running maximum and only
takes the absolute value after an update, so the reported L1 norm and time
of max are wrong on rows whose extreme value is negative. -/
theorem calcL1Norm_counterexample :
    calcL1Norm [(-5 : ℚ), 1] = (1, 1) ∧
    maxAbsList [(-5 : ℚ), 1] = 5 := by
  constructor
  · norm_num [calcL1Norm, calcL1NormLoop]
  · norm_num [maxAbsList]

/-- Numeric outputs of the `nlpsol` call in `Transcription::solve`, plus
the solver's `success` stat (CasOCTranscription.cpp:465-481). -/
structure NlpResult where
  x : List ℚ
  f : ℚ
  g : List ℚ
  success : Bool

/-- The `CasOC::Solution` fields `Transcription::solve` fills in (`vars`
models `solution.variables = expandVariables(finalVariables)`). -/
structure SolutionRec where
  vars : List ℚ
  objective : ℚ
  success : Bool

/-- Tail of `Transcription::solve` after the solver returns
(CasOCTranscription.cpp:472-489): build the solution from the returned `x`
and `f` and the stats; when the stats report failure, recompute the
constraint values by calling the saved `constraints(x)` function on the
returned `x` (the solver's own `g` output is never read — the comment in
the source notes it comes back all zero) and hand the expanded result to
`printConstraintValues`.  This path contains no throw.  The second
component is what reaches the printer (`none` on success: nothing is
printed). -/
def finalizeSolve (expandVars constraintFunc expandCons : List ℚ → List ℚ)
    (res : NlpResult) : SolutionRec × Option (List ℚ) :=
  let sol : SolutionRec :=
    { vars := expandVars res.x, objective := res.f,
      success := res.success }
  if res.success then (sol, none)
  else (sol, some (expandCons (constraintFunc res.x)))

/-- C7: when the solver reports non-success, `solve` returns (rather than
throws) a solution whose stats carry `success = false`, and the constraint
values handed to the diagnostic printer are recomputed by the saved
constraint function on the solver's returned `x` — independent of the `g`
output the solver produced. -/
theorem solve_failure_reporting (eV cF eC : List ℚ → List ℚ)
    (res : NlpResult) (h : res.success = false) :
    (finalizeSolve eV cF eC res).1.success = false ∧
    (finalizeSolve eV cF eC res).2 = some (eC (cF res.x)) ∧
    (∀ g2, finalizeSolve eV cF eC { res with g := g2 } =
      finalizeSolve eV cF eC res) := by
  refine ⟨?_, ?_, ?_⟩ <;> simp [finalizeSolve, h]

/-- Witness for C7: a failed solver result with a zero-filled `g` still
yields the recomputed constraints (doubling function applied to the
returned `x`). -/
theorem solve_failure_reporting_witness :
    ({ x := [1, 2], f := 3, g := [0, 0], success := false } :
      NlpResult).success = false ∧
    (finalizeSolve id (fun v => v.map (fun q => 2 * q)) id
      { x := [1, 2], f := 3, g := [0, 0], success := false }).2 =
      some [2, 4] := by
  refine ⟨rfl, ?_⟩
  have h := solve_failure_reporting id (fun v => v.map (fun q => 2 * q)) id
    { x := [1, 2], f := 3, g := [0, 0], success := false } rfl
  rw [h.2.1]
  norm_num

/-- `m_numConstraints` as computed in
`Transcription::createVariablesAndSetBounds` (CasOCTranscription.cpp:43-51):
the defect, residual and kinematic terms, then a loop accumulating
`info.size() * m_numMeshPoints` over the path constraints. -/
def numConstraintsComputed (numDefectsPerGridPoint : Nat)
    (implicitMode : Bool)
    (numSpeeds numGridPoints numMeshPoints numKCEquations : Nat)
    (pathSizes : List Nat) : Nat :=
  pathSizes.foldl (fun acc s => acc + s * numMeshPoints)
    (numDefectsPerGridPoint * (numMeshPoints - 1) +
      numResidualsOf implicitMode numSpeeds * numGridPoints +
      numKCEquations * numMeshPoints)

theorem foldl_add_mul (M : Nat) (sizes : List Nat) :
    ∀ init : Nat, sizes.foldl (fun acc s => acc + s * M) init =
      init + (sizes.map (fun s => s * M)).sum := by
  induction sizes with
  | nil => intro init; simp
  | cons s rest ih =>
    intro init
    simp only [List.foldl_cons, List.map_cons, List.sum_cons]
    rw [ih]
    omega

/-- C8: the total constraint count, stored in `m_numConstraints` and
printed by the diagnostic report as "Total number of constraints", equals
`Nd·I + NR·G + K·M + Σᵢ Sᵢ·M` with `I = M − 1` mesh intervals and
`NR = NU` in implicit mode, `0` otherwise. -/
theorem numConstraints_formula (Nd : Nat) (implicitMode : Bool)
    (NU G M K : Nat) (pathSizes : List Nat) :
    numConstraintsComputed Nd implicitMode NU G M K pathSizes =
      Nd * (M - 1) + (if implicitMode then NU else 0) * G + K * M +
        (pathSizes.map (fun s => s * M)).sum := by
  unfold numConstraintsComputed numResidualsOf
  rw [foldl_add_mul]

/-- Name lists of a `CasOC::Iterate` available to
`printConstraintValues` for labelling. -/
structure IterateNames where
  state_names : List String
  control_names : List String
  multiplier_names : List String
  derivative_names : List String
  slack_names : List String

/-- The variable blocks whose bound tables `printConstraintValues`
prints. -/
inductive VarBlock where
  | states
  | controls
  | multipliers
  | derivatives
  | slacks
deriving DecidableEq, Repr

/-- The five `print_bounds` calls issued by
`Transcription::printConstraintValues` for the time-varying variable
blocks (CasOCTranscription.cpp:604-613): description, the name list passed
for row labels, and the block whose values and bounds are printed.  The
source passes `it.state_names` as the name argument of every call. -/
def printBoundsCalls (it : IterateNames) :
    List (String × List String × VarBlock) :=
  [("State bounds", it.state_names, VarBlock.states),
   ("Control bounds", it.state_names, VarBlock.controls),
   ("Multiplier bounds", it.state_names, VarBlock.multipliers),
   ("Derivative bounds", it.state_names, VarBlock.derivatives),
   ("Slack bounds", it.state_names, VarBlock.slacks)]

/-- C10: every one of the five time-varying `print_bounds` calls in the
failure report receives the iterate's state names as its row-label list —
the controls, multipliers, derivatives and slacks blocks are not labelled
with their own name lists. -/
theorem printConstraintValues_label_lists (it : IterateNames) :
    (printBoundsCalls it).map (fun call => call.2.1) =
      List.replicate 5 it.state_names := by
  rfl

end CasOC
